import Mathlib

/-!
Verification of the `sqlite_dbhash` library (`src/lib.rs`), a Rust port of the
SQLite `dbhash` utility.  The development shallowly embeds the library:

* the SQLite engine (an external collaborator, reached through `rusqlite`) is
  modelled as a `DB` value together with executable semantics for the three
  SQL queries the library issues;
* the SHA-1 accumulator (an external collaborator from the `sha1` crate) is
  modelled as the list of bytes fed to it, finalized by an executable SHA-1;
* the library functions `dbhash`, `hash_content`, `hash_schema`, `hash_query`
  are translated line by line, with fallibility made explicit via `Except`.
-/

namespace DbHash

/-! ## Bytes and 32-bit words -/

/-- Big-endian base-256 digits: `beBytes w v` is the `w`-byte big-endian
encoding of `v % 256^w`.  Mirrors `i64::to_be_bytes`/`f64::to_be_bytes`. -/
def beBytes : Nat → Nat → List Nat
  | 0, _ => []
  | w + 1, v => beBytes w (v / 256) ++ [v % 256]

theorem beBytes_length (w v : Nat) : (beBytes w v).length = w := by
  induction w generalizing v with
  | zero => rfl
  | succ w ih => simp [beBytes, ih]

/-- Truncate to a 32-bit word. -/
def w32 (x : Nat) : Nat := x % 2 ^ 32

/-- Rotate a 32-bit word left by `s` (for `s ≤ 32`). -/
def rotl (s x : Nat) : Nat := (x % 2 ^ (32 - s)) * 2 ^ s + x / 2 ^ (32 - s)

/-! ## SHA-1

Modelled from the spec: the hash primitive is an external collaborator
("consumed as a streaming accumulator"); the spec fixes it to SHA-1 with a
20-byte (160-bit) digest.  This is the standard FIPS 180 SHA-1 over the
accumulated byte stream. -/

/-- SHA-1 round function `f_t`. -/
def sha1F (t b c d : Nat) : Nat :=
  if t < 20 then (b &&& c) ||| ((2 ^ 32 - 1 - b) &&& d)
  else if t < 40 then b ^^^ c ^^^ d
  else if t < 60 then (b &&& c) ||| (b &&& d) ||| (c &&& d)
  else b ^^^ c ^^^ d

/-- SHA-1 round constant `K_t`. -/
def sha1K (t : Nat) : Nat :=
  if t < 20 then 0x5A827999
  else if t < 40 then 0x6ED9EBA1
  else if t < 60 then 0x8F1BBCDC
  else 0xCA62C1D6

/-- Pack bytes into big-endian 32-bit words (groups of 4). -/
def bytesToWords : List Nat → List Nat
  | b0 :: b1 :: b2 :: b3 :: rest =>
      (((b0 * 256 + b1) * 256 + b2) * 256 + b3) :: bytesToWords rest
  | _ => []

/-- Extend a 16-word block schedule by `k` further words
(`W_t = rotl1 (W_{t-3} xor W_{t-8} xor W_{t-14} xor W_{t-16})`). -/
def extendWords : List Nat → Nat → List Nat
  | ws, 0 => ws
  | ws, k + 1 =>
      extendWords
        (ws ++ [rotl 1 ((ws.getD (ws.length - 3) 0) ^^^ (ws.getD (ws.length - 8) 0) ^^^
          (ws.getD (ws.length - 14) 0) ^^^ (ws.getD (ws.length - 16) 0))]) k

/-- The 80 SHA-1 rounds over the schedule `ws` starting at round `t`. -/
def sha1Rounds : Nat → List Nat → Nat × Nat × Nat × Nat × Nat → Nat × Nat × Nat × Nat × Nat
  | _, [], st => st
  | t, w :: ws, (a, b, c, d, e) =>
      sha1Rounds (t + 1) ws
        (w32 (rotl 5 a + sha1F t b c d + e + sha1K t + w), a, rotl 30 b, c, d)

/-- Compress one 16-word block into the chaining state. -/
def sha1Block (h : Nat × Nat × Nat × Nat × Nat) (block : List Nat) :
    Nat × Nat × Nat × Nat × Nat :=
  let (a, b, c, d, e) := sha1Rounds 0 (extendWords block 64) h
  (w32 (h.1 + a), w32 (h.2.1 + b), w32 (h.2.2.1 + c), w32 (h.2.2.2.1 + d), w32 (h.2.2.2.2 + e))

/-- Fold the compression function over consecutive 16-word blocks. -/
def sha1Blocks : Nat × Nat × Nat × Nat × Nat → List Nat → Nat × Nat × Nat × Nat × Nat
  | h, w0 :: w1 :: w2 :: w3 :: w4 :: w5 :: w6 :: w7 :: w8 :: w9 :: w10 :: w11 :: w12 ::
      w13 :: w14 :: w15 :: rest =>
      sha1Blocks
        (sha1Block h [w0, w1, w2, w3, w4, w5, w6, w7, w8, w9, w10, w11, w12, w13, w14, w15]) rest
  | h, _ => h

/-- Merkle–Damgård padding: `0x80`, zeros, then the 64-bit big-endian bit length. -/
def sha1Pad (msg : List Nat) : List Nat :=
  msg ++ 128 :: List.replicate ((64 - (msg.length + 9) % 64) % 64) 0 ++
    beBytes 8 (8 * msg.length)

/-- SHA-1 digest (20 bytes) of a byte stream. -/
def sha1 (msg : List Nat) : List Nat :=
  let (h0, h1, h2, h3, h4) :=
    sha1Blocks (0x67452301, 0xEFCDAB89, 0x98BADCFE, 0x10325476, 0xC3D2E1F0)
      (bytesToWords (sha1Pad msg))
  beBytes 4 h0 ++ beBytes 4 h1 ++ beBytes 4 h2 ++ beBytes 4 h3 ++ beBytes 4 h4

theorem sha1_length (msg : List Nat) : (sha1 msg).length = 20 := by
  unfold sha1
  generalize sha1Blocks _ _ = h
  obtain ⟨h0, h1, h2, h3, h4⟩ := h
  simp [beBytes_length]

/-! ## ASCII case folding, SQLite `LIKE`, and the `nocase` collation

These model the query-language features of the engine collaborator that the
library's SQL relies on: the case-insensitive `LIKE` operator (`%` matches any
sequence, `_` any single character, ASCII-only case folding) and the `nocase`
collation (ASCII case folding, then ordinary lexicographic comparison). -/

/-- ASCII case folding: map `A`–`Z` to `a`–`z`, leave everything else alone. -/
def foldChar (c : Char) : Char :=
  if 'A' ≤ c ∧ c ≤ 'Z' then Char.ofNat (c.toNat + 32) else c

/-- Fuel-driven core of the `LIKE` matcher (fuel makes the recursion
structural and hence kernel-evaluable; `likeLists` supplies enough fuel). -/
def likeF : Nat → List Char → List Char → Bool
  | 0, _, _ => false
  | _ + 1, [], s => s.isEmpty
  | fuel + 1, p :: ps, s =>
    if p = '%' then
      likeF fuel ps s ||
        (match s with
         | [] => false
         | _ :: s' => likeF fuel (p :: ps) s')
    else
      match s with
      | [] => false
      | c :: s' => (p = '_' || foldChar p = foldChar c) && likeF fuel ps s'

def likeLists (p s : List Char) : Bool := likeF (p.length + s.length + 1) p s

theorem likeF_succ (fuel : Nat) (p : Char) (ps s : List Char) :
    likeF (fuel + 1) (p :: ps) s =
      if p = '%' then
        likeF fuel ps s ||
          (match s with
           | [] => false
           | _ :: s' => likeF fuel (p :: ps) s')
      else
        match s with
        | [] => false
        | c :: s' => (p = '_' || foldChar p = foldChar c) && likeF fuel ps s' := rfl

theorem likeF_fuel (f f' : Nat) (p s : List Char)
    (h : p.length + s.length < f) (h' : p.length + s.length < f') :
    likeF f p s = likeF f' p s := by
  induction f generalizing f' p s with
  | zero => omega
  | succ f ih =>
    match f' with
    | 0 => omega
    | f' + 1 =>
      match p with
      | [] => rfl
      | p :: ps =>
        simp only [List.length_cons] at h h'
        rw [likeF_succ, likeF_succ]
        by_cases hp : p = '%'
        · subst hp
          rw [if_pos rfl, if_pos rfl]
          match s with
          | [] =>
            rw [ih f' ps [] (by first | omega | (simp only [List.length_cons, List.length_nil]; omega)) (by first | omega | (simp only [List.length_cons, List.length_nil]; omega))]
          | c :: s' =>
            simp only [List.length_cons] at h h'
            simp only
            rw [ih f' ps (c :: s') (by first | omega | (simp only [List.length_cons, List.length_nil]; omega)) (by first | omega | (simp only [List.length_cons, List.length_nil]; omega)),
              ih f' ('%' :: ps) s' (by first | omega | (simp only [List.length_cons, List.length_nil]; omega)) (by first | omega | (simp only [List.length_cons, List.length_nil]; omega))]
        · rw [if_neg hp, if_neg hp]
          match s with
          | [] => rfl
          | c :: s' =>
            simp only [List.length_cons] at h h'
            simp only
            rw [ih f' ps s' (by first | omega | (simp only [List.length_cons, List.length_nil]; omega)) (by first | omega | (simp only [List.length_cons, List.length_nil]; omega))]

theorem likeLists_nil (s : List Char) : likeLists [] s = s.isEmpty := by
  cases s <;> rfl

theorem likeLists_pc (ps s : List Char) :
    likeLists ('%' :: ps) s =
      (likeLists ps s ||
        (match s with | [] => false | _ :: s' => likeLists ('%' :: ps) s')) := by
  have h1 : likeLists ('%' :: ps) s
      = (likeF (('%' :: ps).length + s.length) ps s ||
        (match s with
         | [] => false
         | _ :: s' => likeF (('%' :: ps).length + s.length) ('%' :: ps) s')) := by
    unfold likeLists
    rw [likeF_succ, if_pos rfl]
  rw [h1]
  unfold likeLists
  congr 1
  · exact likeF_fuel _ _ _ _ (by first | omega | (simp only [List.length_cons, List.length_nil]; omega))
      (by first | omega | (simp only [List.length_cons, List.length_nil]; omega))
  · match s with
    | [] => rfl
    | c :: s' =>
      simp only
      exact likeF_fuel _ _ _ _ (by first | omega | (simp only [List.length_cons, List.length_nil]; omega))
        (by first | omega | (simp only [List.length_cons, List.length_nil]; omega))

theorem likeLists_cons (p : Char) (hp : p ≠ '%') (ps : List Char) (c : Char)
    (s : List Char) :
    likeLists (p :: ps) (c :: s) =
      ((p = '_' || foldChar p = foldChar c) && likeLists ps s) := by
  have h1 : likeLists (p :: ps) (c :: s)
      = (((p = '_' : Bool) || foldChar p = foldChar c) &&
          likeF ((p :: ps).length + (c :: s).length) ps s) := by
    unfold likeLists
    rw [likeF_succ, if_neg hp]
  rw [h1]
  unfold likeLists
  congr 1
  exact likeF_fuel _ _ _ _ (by first | omega | (simp only [List.length_cons, List.length_nil]; omega))
    (by first | omega | (simp only [List.length_cons, List.length_nil]; omega))

theorem likeLists_cons_nil (p : Char) (hp : p ≠ '%') (ps : List Char) :
    likeLists (p :: ps) [] = false := by
  unfold likeLists
  rw [likeF_succ, if_neg hp]

/-- SQLite `s LIKE p` (default, case-insensitive for ASCII). -/
def likeMatch (p s : String) : Bool := likeLists p.data s.data

/-- UTF-8 encoding of one character. -/
def utf8EncodeChar (c : Char) : List Nat :=
  let n := c.toNat
  if n < 0x80 then [n]
  else if n < 0x800 then [0xC0 + n / 64, 0x80 + n % 64]
  else if n < 0x10000 then
    [0xE0 + n / 4096, 0x80 + (n / 64) % 64, 0x80 + n % 64]
  else
    [0xF0 + n / 262144, 0x80 + (n / 4096) % 64, 0x80 + (n / 64) % 64, 0x80 + n % 64]

/-- The UTF-8 bytes of a string — the raw bytes the engine stores for a
text value. -/
def strBytes (s : String) : List Nat :=
  s.data.foldr (fun c acc => utf8EncodeChar c ++ acc) []

/-- Lexicographic comparison of byte/codepoint lists (the `memcmp` of the
`nocase` collation, lifted to folded codepoints). -/
def lexLe : List Nat → List Nat → Bool
  | [], _ => true
  | _ :: _, [] => false
  | a :: as, b :: bs => decide (a < b) || (decide (a = b) && lexLe as bs)

/-- Collation key of the `nocase` collation: ASCII-folded codepoints. -/
def nocaseKey (s : String) : List Nat := s.data.map (fun c => (foldChar c).toNat)

/-- String comparison under the `nocase` collation. -/
def nocaseLe (a b : String) : Bool := lexLe (nocaseKey a) (nocaseKey b)

theorem lexLe_total (a b : List Nat) : lexLe a b = true ∨ lexLe b a = true := by
  induction a generalizing b with
  | nil => left; rfl
  | cons x as ih =>
    match b with
    | [] => right; rfl
    | y :: bs =>
      rcases Nat.lt_trichotomy x y with h | h | h
      · left; simp [lexLe, h]
      · subst h
        rcases ih bs with h' | h'
        · left; simp [lexLe, h']
        · right; simp [lexLe, h']
      · right; simp [lexLe, h]

theorem lexLe_trans {a b c : List Nat} (h1 : lexLe a b = true)
    (h2 : lexLe b c = true) : lexLe a c = true := by
  induction a generalizing b c with
  | nil => rfl
  | cons x as ih =>
    match b, c with
    | [], _ => simp [lexLe] at h1
    | _ :: _, [] => simp [lexLe] at h2
    | y :: bs, z :: cs =>
      simp only [lexLe, Bool.or_eq_true, Bool.and_eq_true, decide_eq_true_eq] at h1 h2 ⊢
      rcases h1 with h1 | ⟨rfl, h1⟩
      · rcases h2 with h2 | ⟨rfl, _⟩
        · exact Or.inl (h1.trans h2)
        · exact Or.inl h1
      · rcases h2 with h2 | ⟨rfl, h2⟩
        · exact Or.inl h2
        · exact Or.inr ⟨rfl, ih h1 h2⟩

/-! ### Closed forms for the wildcard-free-prefix patterns -/

/-- Case-insensitive prefix test (ASCII folding on both sides). -/
def startsWithCI (p s : String) : Bool :=
  (p.data.map foldChar).isPrefixOf (s.data.map foldChar)

/-- A pattern fragment without wildcards. -/
def noWild (p : List Char) : Bool := p.all (fun c => !(c = '%') && !(c = '_'))

theorem likeLists_pc_any (s : List Char) : likeLists ['%'] s = true := by
  induction s with
  | nil => rfl
  | cons c s ih =>
    rw [likeLists_pc]
    simp only [ih]
    simp

theorem likeLists_pc_pc (ps : List Char) (s : List Char) :
    likeLists ('%' :: '%' :: ps) s = likeLists ('%' :: ps) s := by
  induction s with
  | nil =>
    rw [likeLists_pc, likeLists_pc ps []]
    simp
  | cons c s ih =>
    rw [likeLists_pc, likeLists_pc ps (c :: s)]
    simp only [ih]
    cases likeLists ps (c :: s) <;> cases likeLists ('%' :: ps) s <;> simp

theorem likeLists_noWild_pc (p : List Char) (hw : noWild p = true) (s : List Char) :
    likeLists (p ++ ['%']) s = (p.map foldChar).isPrefixOf (s.map foldChar) := by
  induction p generalizing s with
  | nil =>
    rw [List.nil_append, likeLists_pc_any]
    simp
  | cons c p ih =>
    simp only [noWild, List.all_cons, Bool.and_eq_true, Bool.not_eq_true',
      decide_eq_false_iff_not] at hw
    obtain ⟨⟨hcp, hcu⟩, hrest⟩ := hw
    match s with
    | [] =>
      rw [List.cons_append, likeLists_cons_nil c hcp]
      simp
    | a :: s' =>
      rw [List.cons_append, likeLists_cons c hcp _ a s',
        ih (by simp [noWild, hrest]) s']
      have hbe : (foldChar c == foldChar a) = decide (foldChar c = foldChar a) := by
        rcases Decidable.em (foldChar c = foldChar a) with h | h <;> simp [h]
      simp [List.isPrefixOf, hcu, hbe]

theorem likeLists_noWild_pcpc (p : List Char) (hw : noWild p = true)
    (s : List Char) :
    likeLists (p ++ ['%', '%']) s = likeLists (p ++ ['%']) s := by
  induction p generalizing s with
  | nil => exact likeLists_pc_pc [] s
  | cons c p ih =>
    simp only [noWild, List.all_cons, Bool.and_eq_true, Bool.not_eq_true',
      decide_eq_false_iff_not] at hw
    obtain ⟨⟨hcp, _⟩, hrest⟩ := hw
    match s with
    | [] =>
      rw [List.cons_append, List.cons_append, likeLists_cons_nil c hcp,
        likeLists_cons_nil c hcp]
    | a :: s' =>
      rw [List.cons_append, List.cons_append, likeLists_cons c hcp _ a s',
        likeLists_cons c hcp _ a s', ih (by simp [noWild, hrest]) s']

/-- The `sql NOT LIKE 'CREATE VIRTUAL%%'` test is exactly a case-insensitive
prefix test: the pattern holds no `_` wildcard. -/
theorem likeMatch_createVirtual (s : String) :
    likeMatch "CREATE VIRTUAL%%" s = startsWithCI "CREATE VIRTUAL" s := by
  have hdecomp : "CREATE VIRTUAL%%".data = "CREATE VIRTUAL".data ++ ['%', '%'] := by
    decide
  rw [likeMatch, startsWithCI, hdecomp,
    likeLists_noWild_pcpc "CREATE VIRTUAL".data (by decide),
    likeLists_noWild_pc "CREATE VIRTUAL".data (by decide)]

/-! ## Column values and the value encoder

`Value` is the dynamic type of the engine (`rusqlite::types::ValueRef`).
`Real` carries the raw 64-bit IEEE-754 bit pattern of the stored double (the
shallow embedding of `f64`: the library only ever observes it through
`f64::to_be_bytes`, i.e. through exactly these bits). -/

inductive Value where
  | null : Value
  | integer (v : Int) : Value
  | real (bits : Nat) : Value
  | text (bytes : List Nat) : Value
  | blob (bytes : List Nat) : Value
deriving DecidableEq

/-- One arm of the `match val` in `hash_query` (src/lib.rs:166–198): the
`hasher.update` calls made for one column value, acting on the accumulated
byte stream `acc`.  Tags are the ASCII bytes `'0'`..`'4'` (48..52). -/
def updateValue (acc : List Nat) (v : Value) : List Nat :=
  match v with
  | .null => acc ++ [48]
  | .integer n => (acc ++ [49]) ++ beBytes 8 (n % (2 ^ 64 : Int)).toNat
  | .real bits => (acc ++ [50]) ++ beBytes 8 bits
  | .text b => (acc ++ [51]) ++ b
  | .blob b => (acc ++ [52]) ++ b

theorem updateValue_append (a b : List Nat) (v : Value) :
    updateValue (a ++ b) v = a ++ updateValue b v := by
  cases v <;> simp [updateValue]

/-! ## Fallible cursors and `hash_query`

`rusqlite` surfaces engine failures as `Result`s: advancing the cursor
(`rows.next()?`) and reading a value (`row.get_ref(i)?`) can both fail.  A
cursor is therefore a list of steps, each either an error or a row whose
cells are themselves fallible reads. -/

/-- Engine errors (`rusqlite::Error`), abstracted to an opaque code. -/
inductive Err where
  | engine (code : Nat) : Err
deriving DecidableEq

instance {e a : Type} [DecidableEq e] [DecidableEq a] : DecidableEq (Except e a) := fun
  | .error x, .error y =>
    if h : x = y then .isTrue (h ▸ rfl)
    else .isFalse (fun hh => h (Except.error.inj hh))
  | .error _, .ok _ => .isFalse Except.noConfusion
  | .ok _, .error _ => .isFalse Except.noConfusion
  | .ok x, .ok y =>
    if h : x = y then .isTrue (h ▸ rfl)
    else .isFalse (fun hh => h (Except.ok.inj hh))

/-- A result-set cursor as the library observes it. -/
abbrev Cursor := List (Except Err (List (Except Err Value)))

/-- `row.get_ref(i)` — reading column `i` of a row: out of range is an
engine-side error, and an in-range cell may itself fail to read. -/
def getRef (row : List (Except Err Value)) (i : Nat) : Except Err Value :=
  match row.get? i with
  | some v => v
  | none => Except.error (Err.engine 0)

/-- The `for i in 0..column_count` loop body of `hash_query`
(src/lib.rs:164–199): hash columns `i, i+1, …, i+k-1` of one row. -/
def hashCols : List Nat → List (Except Err Value) → Nat → Nat → Except Err (List Nat)
  | acc, _, _, 0 => Except.ok acc
  | acc, row, i, k + 1 =>
    match getRef row i with
    | Except.error e => Except.error e
    | Except.ok v => hashCols (updateValue acc v) row (i + 1) k

/-- The `while let Some(row) = rows.next()?` loop of `hash_query` after the
column count `n` has been bound by the `OnceCell` at the first row. -/
def hashQueryGo : List Nat → Nat → Cursor → Except Err (List Nat)
  | acc, _, [] => Except.ok acc
  | _, _, Except.error e :: _ => Except.error e
  | acc, n, Except.ok row :: rest =>
    match hashCols acc row 0 n with
    | Except.error e => Except.error e
    | Except.ok acc' => hashQueryGo acc' n rest

/-- `hash_query` (src/lib.rs:155–203): stream one query's rows into the
accumulator.  The column count is *not* known before the first row; it is
bound lazily (`OnceCell::get_or_init`) from the first row that the cursor
yields and reused for every subsequent row. -/
def hash_query (acc : List Nat) (rows : Cursor) : Except Err (List Nat) :=
  match rows with
  | [] => Except.ok acc
  | Except.error e :: _ => Except.error e
  | Except.ok row :: rest =>
    match hashCols acc row 0 row.length with
    | Except.error e => Except.error e
    | Except.ok acc' => hashQueryGo acc' row.length rest

/-! ## Table-name quoting and the scan statement -/

/-- `name.replace('"', "\x22\x22")` (src/lib.rs:115): double every literal
double quote. -/
def quoteTableName (s : String) : String :=
  ⟨s.data.foldr (fun c acc => if c = '"' then c :: c :: acc else c :: acc) []⟩

/-- The full-table-scan statement `SELECT * FROM "<quoted name>"`
(src/lib.rs:117). -/
def scanSQL (s : String) : String :=
  "SELECT * FROM \"" ++ quoteTableName s ++ "\""

/-! ## The database model

The engine collaborator is modelled as a `DB`: the `sqlite_schema` catalog in
its storage order, plus the stored tables with their rows in natural
(engine-enumeration) order.  The three queries the library issues are given
executable semantics below (`tableNamesQ`, `execScanSQL`, `schemaRowsQ`). -/

/-- One row of the `sqlite_schema` catalog.  `sql` is `NULL` for objects with
no defining statement (e.g. auto-indexes). -/
structure SchemaObject where
  otype : String
  name : String
  tblName : String
  sql : Option String
deriving DecidableEq

/-- A stored table: its name and its rows in natural enumeration order. -/
structure Table where
  name : String
  rows : List (List Value)
deriving DecidableEq

/-- A database state. -/
structure DB where
  schema : List SchemaObject
  tables : List Table
deriving DecidableEq

/-- Ordering of catalog rows under `ORDER BY name COLLATE nocase`. -/
def byNameNocase (a b : SchemaObject) : Prop := nocaseLe a.name b.name = true

instance : DecidableRel byNameNocase := fun a b => decEq _ _

instance : IsTotal SchemaObject byNameNocase :=
  ⟨fun a b => lexLe_total (nocaseKey a.name) (nocaseKey b.name)⟩

instance : IsTrans SchemaObject byNameNocase :=
  ⟨fun _ _ _ h1 h2 => lexLe_trans h1 h2⟩

/-- The `WHERE` clause of the table-discovery query (src/lib.rs:87–104):
`type = 'table' AND sql NOT LIKE 'CREATE VIRTUAL%%' AND name NOT LIKE
'sqlite_%%' AND name LIKE ?1` (the last conjunct only when a pattern is
given).  `NOT LIKE` against a `NULL` `sql` is `NULL`, so such rows are
filtered out. -/
def tableSelWhere (pat : Option String) (o : SchemaObject) : Bool :=
  decide (o.otype = "table")
    && (match o.sql with
        | some s => !likeMatch "CREATE VIRTUAL%%" s
        | none => false)
    && !likeMatch "sqlite_%%" o.name
    && (match pat with
        | some p => likeMatch p o.name
        | none => true)

/-- Engine semantics of the table-discovery query: filter the catalog by
`tableSelWhere`, sort by name under `nocase`, project the names. -/
def tableNamesQ (db : DB) (pat : Option String) : List String :=
  ((db.schema.filter (tableSelWhere pat)).insertionSort byNameNocase).map (·.name)

/-- The `WHERE` clause of the schema query (src/lib.rs:136–149):
`tbl_name LIKE ?1`, or no filter. -/
def schemaWhere (pat : Option String) (o : SchemaObject) : Bool :=
  match pat with
  | some p => likeMatch p o.tblName
  | none => true

/-- A catalog row as the result row `(type, name, tbl_name, sql)`. -/
def schemaObjRow (o : SchemaObject) : List Value :=
  [Value.text (strBytes o.otype), Value.text (strBytes o.name),
   Value.text (strBytes o.tblName),
   match o.sql with
   | some s => Value.text (strBytes s)
   | none => Value.null]

/-- Engine semantics of the schema query `SELECT type, name, tbl_name, sql
FROM sqlite_schema [WHERE tbl_name LIKE ?1] ORDER BY name COLLATE nocase`. -/
def schemaRowsQ (db : DB) (pat : Option String) : List (List Value) :=
  ((db.schema.filter (schemaWhere pat)).insertionSort byNameNocase).map schemaObjRow

/-- Strip an expected prefix from a character list, returning the rest. -/
def stripPrefixL : List Char → List Char → Option (List Char)
  | [], s => some s
  | _ :: _, [] => none
  | p :: ps, c :: s => if p = c then stripPrefixL ps s else none

/-- Parse the body of a double-quoted SQL identifier (opening quote already
consumed): a doubled `""` stands for one literal `"`, a single `"` ends the
identifier. -/
def parseQuotedBody : List Char → List Char → Option (List Char × List Char)
  | _, [] => none
  | acc, [c] => if c = '"' then some (acc, []) else none
  | acc, c :: d :: rest =>
    if c = '"' then
      (if d = '"' then parseQuotedBody (acc ++ ['"']) rest
       else some (acc, d :: rest))
    else parseQuotedBody (acc ++ [c]) (d :: rest)

/-- Definitional unfolding: one remaining character. -/
theorem pqb_one (acc : List Char) (c : Char) :
    parseQuotedBody acc [c] = if c = '"' then some (acc, []) else none := rfl

/-- Definitional unfolding: two or more remaining characters. -/
theorem pqb_two (acc : List Char) (c d : Char) (rest : List Char) :
    parseQuotedBody acc (c :: d :: rest) =
      if c = '"' then
        (if d = '"' then parseQuotedBody (acc ++ ['"']) rest
         else some (acc, d :: rest))
      else parseQuotedBody (acc ++ [c]) (d :: rest) := rfl

/-- Engine semantics of preparing and running the scan statement: parse
`SELECT * FROM "<ident>"`, resolve the table, return its rows as a cursor.
Any other statement shape or an unknown table is a preparation error. -/
def execScanSQL (db : DB) (sql : String) : Except Err Cursor :=
  match stripPrefixL "SELECT * FROM \"".data sql.data with
  | none => Except.error (Err.engine 1)
  | some rest =>
    match parseQuotedBody [] rest with
    | none => Except.error (Err.engine 1)
    | some (ident, trailing) =>
      if trailing = [] then
        match db.tables.find? (fun t => t.name = String.mk ident) with
        | some t => Except.ok (t.rows.map (fun r => Except.ok (r.map Except.ok)))
        | none => Except.error (Err.engine 1)
      else Except.error (Err.engine 1)

/-! ## The engine interface and the library functions

`Engine` is the face of the connection as the library uses it: executing the
table-discovery query yields fallible name reads (`rows.next()?` and
`row.get_ref(0)?.as_str()?` folded into one step per row), preparing the scan
statement yields a cursor, and the schema query yields a cursor. -/

structure Engine where
  tableNames : Option String → Except Err (List (Except Err String))
  prepareScan : String → Except Err Cursor
  schemaCursor : Option String → Except Err Cursor

/-- The loop of `hash_content` (src/lib.rs:107–119): for each discovered
table name, prepare `SELECT * FROM "<quoted name>"` and hash the result. -/
def hashContentGo : List Nat → Engine → List (Except Err String) → Except Err (List Nat)
  | acc, _, [] => Except.ok acc
  | _, _, Except.error e :: _ => Except.error e
  | acc, eng, Except.ok name :: rest =>
    match eng.prepareScan (scanSQL name) with
    | Except.error e => Except.error e
    | Except.ok cur =>
      match hash_query acc cur with
      | Except.error e => Except.error e
      | Except.ok acc' => hashContentGo acc' eng rest

/-- `hash_content` (src/lib.rs:76–122): discover the matching tables, then
hash each table's full scan in discovery order. -/
def hash_content (acc : List Nat) (eng : Engine) (pat : Option String) :
    Except Err (List Nat) :=
  match eng.tableNames pat with
  | Except.error e => Except.error e
  | Except.ok names => hashContentGo acc eng names

/-- `hash_schema` (src/lib.rs:125–153): hash the schema query's result. -/
def hash_schema (acc : List Nat) (eng : Engine) (pat : Option String) :
    Except Err (List Nat) :=
  match eng.schemaCursor pat with
  | Except.error e => Except.error e
  | Except.ok cur => hash_query acc cur

/-- `Selection` (src/lib.rs:17–24). -/
inductive Selection where
  | SchemaAndContent : Selection
  | SchemaOnly : Selection
  | ContentOnly : Selection
deriving DecidableEq

/-- `matches!(selection, Selection::SchemaAndContent | Selection::ContentOnly)`. -/
def contentSelected : Selection → Bool
  | .SchemaAndContent => true
  | .ContentOnly => true
  | .SchemaOnly => false

/-- `matches!(selection, Selection::SchemaAndContent | Selection::SchemaOnly)`. -/
def schemaSelected : Selection → Bool
  | .SchemaAndContent => true
  | .SchemaOnly => true
  | .ContentOnly => false

/-- `dbhash` (src/lib.rs:49–73): a fresh accumulator, content hashing when
selected, then schema hashing when selected, then one finalization. -/
def dbhash (eng : Engine) (pat : Option String) (sel : Selection) :
    Except Err (List Nat) :=
  match (if contentSelected sel then hash_content [] eng pat else Except.ok []) with
  | Except.error e => Except.error e
  | Except.ok acc1 =>
    match (if schemaSelected sel then hash_schema acc1 eng pat else Except.ok acc1) with
    | Except.error e => Except.error e
    | Except.ok acc2 => Except.ok (sha1 acc2)

/-- The model connection: the `Engine` that a `DB` presents.  Discovery and
the schema query cannot themselves fail on a concrete database value; the
scan goes through SQL-text parsing (`execScanSQL`). -/
def DB.engine (db : DB) : Engine where
  tableNames pat := Except.ok ((tableNamesQ db pat).map Except.ok)
  prepareScan sql := execScanSQL db sql
  schemaCursor pat :=
    Except.ok ((schemaRowsQ db pat).map (fun r => Except.ok (r.map Except.ok)))

/-- `dbhash` run against a database state. -/
def dbhashDB (db : DB) (pat : Option String) (sel : Selection) :
    Except Err (List Nat) :=
  dbhash db.engine pat sel

/-! ## Pure byte streams

On an error-free, well-formed database every cursor read succeeds, and the
computation reduces to a pure byte stream fed to SHA-1.  These stream
functions are the targets of the bridging lemmas below. -/

/-- The rows a table scan returns for `name` (first match in storage order). -/
def rowsOfD (db : DB) (name : String) : List (List Value) :=
  match db.tables.find? (fun t => t.name = name) with
  | some t => t.rows
  | none => []

/-- Byte stream of one query result: the column count is the first row's,
each row contributes its first `n` values in order. -/
def queryStream (rows : List (List Value)) : List Nat :=
  match rows with
  | [] => []
  | r0 :: _ => rows.foldl (fun a r => (r.take r0.length).foldl updateValue a) []

/-- Byte stream of the content phase. -/
def contentStream (db : DB) (pat : Option String) : List Nat :=
  (tableNamesQ db pat).foldl (fun a n => a ++ queryStream (rowsOfD db n)) []

/-- Byte stream of the schema phase. -/
def schemaStream (db : DB) (pat : Option String) : List Nat :=
  queryStream (schemaRowsQ db pat)

/-- All rows of a stored table have one width (true of any real result set). -/
def Table.WF (t : Table) : Prop :=
  ∀ r ∈ t.rows, r.length = (t.rows.headD []).length

instance (t : Table) : Decidable t.WF := List.decidableBAll _ _

/-- Well-formed database: uniform row widths, and every catalog object of
type `table` has a stored table (catalog consistency). -/
def DB.WF (db : DB) : Prop :=
  (∀ t ∈ db.tables, t.WF) ∧
    (∀ o ∈ db.schema, o.otype = "table" →
      (db.tables.find? (fun t => t.name = o.name)).isSome)

instance (db : DB) : Decidable db.WF := by
  unfold DB.WF
  infer_instance

/-! ## Bridging: the fallible pipeline on an error-free cursor -/

/-- An error-free cursor for a list of rows. -/
def okCursor (rows : List (List Value)) : Cursor :=
  rows.map (fun r => Except.ok (r.map Except.ok))

theorem foldl_updateValue_append (l : List Value) (a b : List Nat) :
    l.foldl updateValue (a ++ b) = a ++ l.foldl updateValue b := by
  induction l generalizing b with
  | nil => rfl
  | cons v l ih => simp only [List.foldl_cons, updateValue_append, ih]

theorem hashCols_ok (row : List Value) (k : Nat) :
    ∀ (i : Nat) (acc : List Nat), i + k ≤ row.length →
      hashCols acc (row.map Except.ok) i k =
        Except.ok (((row.drop i).take k).foldl updateValue acc) := by
  induction k with
  | zero => intro i acc _; rfl
  | succ k ih =>
    intro i acc h
    have hi : i < row.length := by omega
    have hget : (row.map (Except.ok : Value → Except Err Value)).get? i
        = some (Except.ok (row.get ⟨i, hi⟩)) := by
      rw [List.get?_map, List.get?_eq_get hi]
      rfl
    rw [hashCols, getRef, hget]
    dsimp only
    rw [ih (i + 1) _ (by omega)]
    have hdrop : row.drop i = row.get ⟨i, hi⟩ :: row.drop (i + 1) := by
      rw [List.drop_eq_get_cons hi]
    rw [hdrop]
    rfl

theorem hashQueryGo_ok (rows : List (List Value)) (n : Nat)
    (h : ∀ r ∈ rows, n ≤ r.length) (acc : List Nat) :
    hashQueryGo acc n (okCursor rows) =
      Except.ok (rows.foldl (fun a r => (r.take n).foldl updateValue a) acc) := by
  induction rows generalizing acc with
  | nil => rfl
  | cons r rows ih =>
    have hr : n ≤ r.length := h r (List.mem_cons_self r rows)
    rw [okCursor, List.map_cons, hashQueryGo,
      hashCols_ok r n 0 acc (by omega), List.drop_zero]
    exact ih (fun r hm => h r (List.mem_cons_of_mem _ hm)) _

theorem foldl_rows_append (n : Nat) (rows : List (List Value)) (a b : List Nat) :
    rows.foldl (fun x r => (r.take n).foldl updateValue x) (a ++ b) =
      a ++ rows.foldl (fun x r => (r.take n).foldl updateValue x) b := by
  induction rows generalizing b with
  | nil => rfl
  | cons r rows ih =>
    simp only [List.foldl_cons]
    rw [foldl_updateValue_append, ih]

theorem hash_query_ok (rows : List (List Value))
    (h : ∀ r ∈ rows, (rows.headD []).length ≤ r.length) (acc : List Nat) :
    hash_query acc (okCursor rows) = Except.ok (acc ++ queryStream rows) := by
  match rows with
  | [] => simp [hash_query, okCursor, queryStream]
  | r0 :: rest =>
    have hcur : okCursor (r0 :: rest)
        = Except.ok (r0.map Except.ok) :: okCursor rest := rfl
    rw [hcur]
    simp only [hash_query, List.length_map]
    rw [hashCols_ok r0 r0.length 0 acc (by omega), List.drop_zero, List.take_length]
    dsimp only
    have hrest : ∀ r ∈ rest, r0.length ≤ r.length := by
      intro r hm
      simpa using h r (List.mem_cons_of_mem _ hm)
    rw [hashQueryGo_ok rest r0.length hrest]
    rw [queryStream]
    simp only [List.foldl_cons, List.take_length]
    have hacc : (r0.foldl updateValue acc : List Nat) = acc ++ r0.foldl updateValue [] := by
      conv_lhs => rw [show acc = acc ++ ([] : List Nat) from (List.append_nil acc).symm]
      exact foldl_updateValue_append r0 acc []
    rw [hacc, foldl_rows_append]

/-! ## The identifier-quoting roundtrip -/

/-- The character-level escaping performed by `quoteTableName`. -/
def escL (l : List Char) : List Char :=
  l.foldr (fun c acc => if c = '"' then c :: c :: acc else c :: acc) []

theorem quoteTableName_data (s : String) : (quoteTableName s).data = escL s.data := rfl

theorem stripPrefixL_append (p rest : List Char) :
    stripPrefixL p (p ++ rest) = some rest := by
  induction p with
  | nil => rfl
  | cons c p ih => simp [stripPrefixL, ih]

theorem parseQuotedBody_esc (s : List Char) :
    ∀ acc, parseQuotedBody acc (escL s ++ ['"']) = some (acc ++ s, []) := by
  induction s with
  | nil =>
    intro acc
    show parseQuotedBody acc ['"'] = some (acc ++ [], [])
    rw [pqb_one, if_pos rfl]
    simp
  | cons c s ih =>
    intro acc
    by_cases hc : c = '"'
    · subst hc
      have he : escL ('"' :: s) ++ ['"'] = '"' :: '"' :: (escL s ++ ['"']) := by
        simp [escL]
      rw [he, pqb_two, if_pos rfl, if_pos rfl, ih (acc ++ ['"'])]
      simp
    · have he : escL (c :: s) ++ ['"'] = c :: (escL s ++ ['"']) := by
        simp [escL, hc]
      rw [he]
      match hrest : escL s ++ ['"'] with
      | [] => simp at hrest
      | d :: rest' =>
        rw [pqb_two, if_neg hc, ← hrest, ih (acc ++ [c])]
        simp

/-- Preparing `SELECT * FROM "<quoted name>"` resolves exactly the intended
table, for every table name (quotes, periods, non-ASCII included). -/
theorem execScanSQL_scanSQL (db : DB) (name : String) :
    execScanSQL db (scanSQL name) =
      match db.tables.find? (fun t => t.name = name) with
      | some t => Except.ok (okCursor t.rows)
      | none => Except.error (Err.engine 1) := by
  have hdata : (scanSQL name).data
      = "SELECT * FROM \"".data ++ (escL name.data ++ ['"']) := by
    rw [scanSQL, String.data_append, String.data_append, quoteTableName_data,
      List.append_assoc]
  rw [execScanSQL, hdata, stripPrefixL_append]
  dsimp only
  rw [parseQuotedBody_esc name.data []]
  simp only [List.nil_append]
  rw [if_pos trivial]
  rfl

/-! ## Bridging: `hash_content`, `hash_schema` and `dbhash` over a database -/

theorem mem_tableNamesQ (db : DB) (pat : Option String) (name : String) :
    name ∈ tableNamesQ db pat ↔
      ∃ o ∈ db.schema, o.name = name ∧ tableSelWhere pat o = true := by
  unfold tableNamesQ
  rw [List.mem_map]
  constructor
  · rintro ⟨o, hmem, rfl⟩
    have := (List.perm_insertionSort byNameNocase _).mem_iff.mp hmem
    rw [List.mem_filter] at this
    exact ⟨o, this.1, rfl, this.2⟩
  · rintro ⟨o, hmem, rfl, hsel⟩
    exact ⟨o, (List.perm_insertionSort byNameNocase _).mem_iff.mpr
      (List.mem_filter.mpr ⟨hmem, hsel⟩), rfl⟩

/-- A discovered name belongs to a catalog object of type `table`. -/
theorem tableNamesQ_isTable (db : DB) (pat : Option String) (name : String)
    (h : name ∈ tableNamesQ db pat) :
    ∃ o ∈ db.schema, o.name = name ∧ o.otype = "table" := by
  obtain ⟨o, hmem, rfl, hsel⟩ := (mem_tableNamesQ db pat name).mp h
  refine ⟨o, hmem, rfl, ?_⟩
  simp only [tableSelWhere, Bool.and_eq_true, decide_eq_true_eq] at hsel
  exact hsel.1.1.1

theorem hashContentGo_ok (db : DB) (names : List String)
    (hpresent : ∀ name ∈ names, (db.tables.find? (fun t => t.name = name)).isSome)
    (hwf : ∀ t ∈ db.tables, t.WF) (acc : List Nat) :
    hashContentGo acc db.engine (names.map Except.ok) =
      Except.ok (names.foldl (fun a n => a ++ queryStream (rowsOfD db n)) acc) := by
  induction names generalizing acc with
  | nil => rfl
  | cons name names ih =>
    have hfind := hpresent name (List.mem_cons_self name names)
    obtain ⟨t, hft⟩ := Option.isSome_iff_exists.mp hfind
    have hrows : rowsOfD db name = t.rows := by rw [rowsOfD, hft]
    have htwf : t.WF := hwf t (List.mem_of_find?_eq_some hft)
    rw [List.map_cons, hashContentGo,
      show db.engine.prepareScan (scanSQL name) = execScanSQL db (scanSQL name) from rfl,
      execScanSQL_scanSQL, hft]
    dsimp only
    rw [hash_query_ok t.rows (fun r hr => le_of_eq (htwf r hr).symm) acc]
    dsimp only
    rw [ih (fun n hn => hpresent n (List.mem_cons_of_mem _ hn)) _]
    rw [List.foldl_cons, hrows]

theorem foldl_stream_append (g : String → List Nat) (names : List String)
    (acc : List Nat) :
    names.foldl (fun a n => a ++ g n) acc =
      acc ++ names.foldl (fun a n => a ++ g n) [] := by
  induction names generalizing acc with
  | nil => simp
  | cons n ns ih =>
    simp only [List.foldl_cons, List.nil_append]
    rw [ih (acc ++ g n), ih (g n), List.append_assoc]

theorem hash_content_db (db : DB) (pat : Option String) (hwf : db.WF)
    (acc : List Nat) :
    hash_content acc db.engine pat = Except.ok (acc ++ contentStream db pat) := by
  rw [hash_content]
  rw [show db.engine.tableNames pat = Except.ok ((tableNamesQ db pat).map Except.ok)
      from rfl]
  dsimp only
  have hpresent : ∀ name ∈ tableNamesQ db pat,
      (db.tables.find? (fun t => t.name = name)).isSome := by
    intro name hn
    obtain ⟨o, hmem, rfl, hot⟩ := tableNamesQ_isTable db pat name hn
    exact hwf.2 o hmem hot
  rw [hashContentGo_ok db _ hpresent hwf.1 acc, contentStream,
    foldl_stream_append (fun n => queryStream (rowsOfD db n)) _ acc]

/-- Every schema result row has width 4. -/
theorem schemaRowsQ_width (db : DB) (pat : Option String) :
    ∀ r ∈ schemaRowsQ db pat, r.length = 4 := by
  intro r hr
  rw [schemaRowsQ] at hr
  obtain ⟨o, _, rfl⟩ := List.mem_map.mp hr
  cases h : o.sql <;> simp [schemaObjRow, h]

theorem hash_schema_db (db : DB) (pat : Option String) (acc : List Nat) :
    hash_schema acc db.engine pat = Except.ok (acc ++ schemaStream db pat) := by
  have hw : ∀ r ∈ schemaRowsQ db pat,
      ((schemaRowsQ db pat).headD []).length ≤ r.length := by
    intro r hr
    rw [schemaRowsQ_width db pat r hr]
    match hrows : schemaRowsQ db pat with
    | [] => simp
    | r0 :: rest =>
      have hmem : r0 ∈ schemaRowsQ db pat := by
        rw [hrows]
        exact List.mem_cons_self _ _
      have : r0.length = 4 := schemaRowsQ_width db pat r0 hmem
      simp [this]
  rw [hash_schema]
  rw [show db.engine.schemaCursor pat = Except.ok (okCursor (schemaRowsQ db pat))
      from rfl]
  dsimp only
  rw [hash_query_ok _ hw acc, schemaStream]

/-- On a well-formed database, `dbhash` succeeds and its digest is SHA-1 of
the pure stream: the content stream when content is selected, followed by
the schema stream when schema is selected. -/
theorem dbhash_db (db : DB) (pat : Option String) (sel : Selection) (hwf : db.WF) :
    dbhashDB db pat sel =
      Except.ok (sha1 ((if contentSelected sel then contentStream db pat else []) ++
        (if schemaSelected sel then schemaStream db pat else []))) := by
  rw [dbhashDB, dbhash]
  cases sel
  · simp only [contentSelected, schemaSelected, if_true]
    rw [hash_content_db db pat hwf []]
    dsimp only
    rw [hash_schema_db db pat _]
    simp
  · simp only [contentSelected, schemaSelected, if_true, Bool.false_eq_true, if_false]
    rw [hash_schema_db db pat []]
  · simp only [contentSelected, schemaSelected, if_true, Bool.false_eq_true, if_false]
    rw [hash_content_db db pat hwf []]
    dsimp only
    simp only [List.nil_append, List.append_nil]

/-! ## The reference tool, modelled from the spec

For the refinement claim the reference command-line tool is not part of this
repository; the definitions below follow the spec's component contracts
(sections 4.1-4.6) word by word and are compared against the embedding of the
code. -/

/-- Modelled from the spec: the Value Encoder contract (section 4.2) — one tag
byte `'0'`..`'4'`, then the payload: nothing, 8-byte big-endian
two's-complement, 8-byte big-endian IEEE-754 bit pattern, or the raw stored
bytes with no length prefix. -/
def refEncodeValue : Value → List Nat
  | .null => [48]
  | .integer n => 49 :: beBytes 8 (n % (2 ^ 64 : Int)).toNat
  | .real bits => 50 :: beBytes 8 bits
  | .text b => 51 :: b
  | .blob b => 52 :: b

/-- Modelled from the spec: the Row Streamer contract (section 4.3) — column
count bound at the first row, each row's values encoded left to right. -/
def refRowStreamer (rows : List (List Value)) : List Nat :=
  match rows with
  | [] => []
  | r0 :: _ =>
      rows.foldl
        (fun a r => (r.take r0.length).foldl (fun x v => x ++ refEncodeValue v) a) []

/-- Modelled from the spec: the Table Selector contract (section 4.1) — type
is `table`, the defining statement does not begin with a virtual-table
declaration, the name does not begin with the reserved internal prefix
`sqlite_`, and the name matches the optional filter.  An object with no
stored statement cannot be affirmed non-virtual and is excluded, matching
the engine's `NULL`-propagating `NOT LIKE` (no `type='table'` row has a
`NULL` statement in practice). -/
def refTableSelWhere (pat : Option String) (o : SchemaObject) : Bool :=
  decide (o.otype = "table")
    && (match o.sql with
        | some stmt => !startsWithCI "CREATE VIRTUAL" stmt
        | none => false)
    && !startsWithCI "sqlite_" o.name
    && (match pat with
        | some p => likeMatch p o.name
        | none => true)

/-- Modelled from the spec: Table Selector output, ascending by name under
case-insensitive collation. -/
def refTableNames (db : DB) (pat : Option String) : List String :=
  ((db.schema.filter (refTableSelWhere pat)).insertionSort byNameNocase).map (·.name)

/-- Modelled from the spec: the Content Hasher contract (section 4.4) — each
selected table's full scan, in selector order, through the Row Streamer. -/
def refContentStream (db : DB) (pat : Option String) : List Nat :=
  (refTableNames db pat).foldl (fun a n => a ++ refRowStreamer (rowsOfD db n)) []

/-- Modelled from the spec: the Schema Hasher contract (section 4.5) — all
catalog objects whose owning table matches the filter, ordered by object name
under `nocase`, as `(type, name, tbl_name, sql)` rows through the Row
Streamer. -/
def refSchemaStream (db : DB) (pat : Option String) : List Nat :=
  refRowStreamer
    (((db.schema.filter (schemaWhere pat)).insertionSort byNameNocase).map schemaObjRow)

/-- Modelled from the spec: the Digest Coordinator contract (section 4.6) —
fresh accumulator, content before schema, one finalization, SHA-1. -/
def referenceDigest (db : DB) (pat : Option String) (sel : Selection) : List Nat :=
  sha1 ((if contentSelected sel then refContentStream db pat else []) ++
    (if schemaSelected sel then refSchemaStream db pat else []))

/-- Lowercase hexadecimal rendering of a digest (the reference tool's printed
output format). -/
def hexDigitChar (n : Nat) : Char :=
  if n < 10 then Char.ofNat (48 + n) else Char.ofNat (87 + n)

/-- A digest printed as lowercase hex. -/
def toLowerHex (bs : List Nat) : String :=
  ⟨bs.foldr (fun b acc => hexDigitChar (b / 16) :: hexDigitChar (b % 16) :: acc) []⟩

/-! ### The spec's encoder and row streamer agree with the code's -/

theorem refEncodeValue_eq (acc : List Nat) (v : Value) :
    updateValue acc v = acc ++ refEncodeValue v := by
  cases v <;> simp [updateValue, refEncodeValue]

theorem foldl_refEncode_eq (l : List Value) (a : List Nat) :
    l.foldl (fun x v => x ++ refEncodeValue v) a = l.foldl updateValue a := by
  induction l generalizing a with
  | nil => rfl
  | cons v l ih =>
    simp only [List.foldl_cons]
    rw [← refEncodeValue_eq, ih]

theorem refRowStreamer_eq (rows : List (List Value)) :
    refRowStreamer rows = queryStream rows := by
  match rows with
  | [] => rfl
  | r0 :: rest =>
    rw [refRowStreamer, queryStream]
    congr 1
    funext a r
    exact foldl_refEncode_eq _ a

/-- Under the hypothesis that no catalog name separates the two prefix rules
(`LIKE 'sqlite\_%'` with `_` as a wildcard versus a literal case-insensitive
`sqlite_` prefix), the code's table selector agrees with the spec's. -/
theorem tableSelWhere_eq_ref (pat : Option String) (o : SchemaObject)
    (hpfx : likeMatch "sqlite_%%" o.name = startsWithCI "sqlite_" o.name) :
    tableSelWhere pat o = refTableSelWhere pat o := by
  unfold tableSelWhere refTableSelWhere
  rw [hpfx]
  congr 2
  match o.sql with
  | none => rfl
  | some stmt =>
    dsimp only
    rw [likeMatch_createVirtual stmt]

theorem refTableNames_eq (db : DB) (pat : Option String)
    (hpfx : ∀ o ∈ db.schema, likeMatch "sqlite_%%" o.name = startsWithCI "sqlite_" o.name) :
    refTableNames db pat = tableNamesQ db pat := by
  rw [refTableNames, tableNamesQ,
    List.filter_congr (fun o ho => (tableSelWhere_eq_ref pat o (hpfx o ho)).symm)]

theorem refContentStream_eq (db : DB) (pat : Option String)
    (hpfx : ∀ o ∈ db.schema, likeMatch "sqlite_%%" o.name = startsWithCI "sqlite_" o.name) :
    refContentStream db pat = contentStream db pat := by
  rw [refContentStream, contentStream, refTableNames_eq db pat hpfx]
  congr 1
  funext a n
  rw [refRowStreamer_eq]

theorem refSchemaStream_eq (db : DB) (pat : Option String) :
    refSchemaStream db pat = schemaStream db pat := by
  rw [refSchemaStream, schemaStream, refRowStreamer_eq, schemaRowsQ]

/-! ## Claim theorems -/

/-- C2: the value encoder appends exactly one tag byte plus the variant's
payload and nothing else: Null is `'0'` with no payload; Integer is `'1'`
then 8 bytes of big-endian two's complement; Real is `'2'` then the 8-byte
big-endian IEEE-754 bit pattern, with NaN and ±Infinity kept as their raw bit
patterns; Text is `'3'` then the raw stored bytes; Blob is `'4'` then the raw
bytes; no variant carries a length prefix. -/
theorem value_encoder_contract :
    (∀ acc : List Nat, updateValue acc Value.null = acc ++ [48]) ∧
    (∀ (acc : List Nat) (n : Int),
      updateValue acc (Value.integer n) = acc ++ 49 :: beBytes 8 (n % (2 ^ 64 : Int)).toNat
        ∧ (beBytes 8 (n % (2 ^ 64 : Int)).toNat).length = 8) ∧
    (∀ (acc : List Nat) (bits : Nat),
      updateValue acc (Value.real bits) = acc ++ 50 :: beBytes 8 bits
        ∧ (beBytes 8 bits).length = 8) ∧
    (∀ (acc : List Nat) (b : List Nat), updateValue acc (Value.text b) = acc ++ 51 :: b) ∧
    (∀ (acc : List Nat) (b : List Nat), updateValue acc (Value.blob b) = acc ++ 52 :: b) ∧
    (∀ acc : List Nat, updateValue acc (Value.real 0x7FF8000000000000)
        = acc ++ 50 :: beBytes 8 0x7FF8000000000000) ∧
    (∀ acc : List Nat, updateValue acc (Value.real 0x7FF0000000000000)
        = acc ++ 50 :: beBytes 8 0x7FF0000000000000) ∧
    (∀ acc : List Nat, updateValue acc (Value.real 0xFFF0000000000000)
        = acc ++ 50 :: beBytes 8 0xFFF0000000000000) := by
  refine ⟨fun acc => by simp [updateValue], fun acc n => ⟨by simp [updateValue], ?_⟩,
    fun acc bits => ⟨by simp [updateValue], ?_⟩, fun acc b => by simp [updateValue],
    fun acc b => by simp [updateValue], fun acc => by simp [updateValue],
    fun acc => by simp [updateValue], fun acc => by simp [updateValue]⟩
  · exact beBytes_length 8 _
  · exact beBytes_length 8 _

/-- C5: the full-table-scan statement wraps the table name in double quotes
after doubling every interior double quote, which is exactly standard SQL
identifier quoting: the engine model parses the statement back to the
original table name for every name, including names with quotes, periods and
non-ASCII characters. -/
theorem table_name_quoting_roundtrip :
    (∀ name : String, scanSQL name = "SELECT * FROM \"" ++ quoteTableName name ++ "\"") ∧
    (∀ name : String, (quoteTableName name).data = escL name.data) ∧
    (∀ (db : DB) (name : String),
      execScanSQL db (scanSQL name) =
        match db.tables.find? (fun t => t.name = name) with
        | some t => Except.ok (okCursor t.rows)
        | none => Except.error (Err.engine 1)) ∧
    execScanSQL ⟨[], [⟨"weird.table+name\"!áÁñçéá", [[Value.null]]⟩]⟩
        (scanSQL "weird.table+name\"!áÁñçéá")
      = Except.ok (okCursor [[Value.null]]) := by
  refine ⟨fun _ => rfl, fun _ => rfl, execScanSQL_scanSQL, ?_⟩
  rw [execScanSQL_scanSQL]
  decide

/-- C6: the column count of a query is bound exactly once, from the first row
the cursor yields — not before execution and not per row — and that count is
reused for every subsequent row; a later row with a different width is still
read with the first row's count. -/
theorem column_count_bound_once :
    (∀ (acc : List Nat) (row : List (Except Err Value)) (rest : Cursor)
        (acc' : List Nat), hashCols acc row 0 row.length = Except.ok acc' →
          hash_query acc (Except.ok row :: rest) = hashQueryGo acc' row.length rest) ∧
    (∀ (acc : List Nat) (n : Nat) (row : List (Except Err Value)) (rest : Cursor)
        (acc' : List Nat), hashCols acc row 0 n = Except.ok acc' →
          hashQueryGo acc n (Except.ok row :: rest) = hashQueryGo acc' n rest) ∧
    hash_query [] (okCursor [[Value.integer 1], [Value.integer 2, Value.integer 3]])
      = Except.ok ([49] ++ beBytes 8 1 ++ [49] ++ beBytes 8 2) := by
  refine ⟨?_, ?_, by decide⟩
  · intro acc row rest acc' h
    have hu : hash_query acc (Except.ok row :: rest)
        = match hashCols acc row 0 row.length with
          | Except.error e => Except.error e
          | Except.ok a => hashQueryGo a row.length rest := rfl
    rw [hu, h]
  · intro acc n row rest acc' h
    have hu : hashQueryGo acc n (Except.ok row :: rest)
        = match hashCols acc row 0 n with
          | Except.error e => Except.error e
          | Except.ok a => hashQueryGo a n rest := rfl
    rw [hu, h]

/-- Witness for C6 at a concrete cursor whose second row is wider than the
first: the hypothesis is discharged by computation. -/
theorem column_count_bound_once_witness :
    hash_query [] (Except.ok [Except.ok (Value.integer 5)] ::
        okCursor [[Value.integer 6, Value.integer 7]])
      = hashQueryGo ([] ++ [49] ++ beBytes 8 5) 1
          (okCursor [[Value.integer 6, Value.integer 7]]) := by
  have h := column_count_bound_once.1 []
    [Except.ok (Value.integer 5)] (okCursor [[Value.integer 6, Value.integer 7]])
    ([] ++ [49] ++ beBytes 8 5) (by decide)
  simpa using h

set_option maxRecDepth 200000 in
/-- C10: the encoded byte stream is not an injective function of the value
sequence: the two Text values `"a"`, `"b"` and the single Text value `"a3b"`
produce the identical stream (no length prefixes), and two databases that
differ only in this way receive the same digest. -/
theorem value_stream_not_injective :
    ([Value.text [97], Value.text [98]] ≠ [Value.text [97, 51, 98]]) ∧
    ([Value.text [97], Value.text [98]].foldl updateValue []
      = [Value.text [97, 51, 98]].foldl updateValue []) ∧
    ((⟨[⟨"table", "t", "t", some "CREATE TABLE t(a,b)"⟩],
        [⟨"t", [[Value.text [97], Value.text [98]]]⟩]⟩ : DB)
      ≠ ⟨[⟨"table", "t", "t", some "CREATE TABLE t(a,b)"⟩],
        [⟨"t", [[Value.text [97, 51, 98]]]⟩]⟩) ∧
    dbhashDB ⟨[⟨"table", "t", "t", some "CREATE TABLE t(a,b)"⟩],
        [⟨"t", [[Value.text [97], Value.text [98]]]⟩]⟩ none Selection.ContentOnly
      = dbhashDB ⟨[⟨"table", "t", "t", some "CREATE TABLE t(a,b)"⟩],
        [⟨"t", [[Value.text [97, 51, 98]]]⟩]⟩ none Selection.ContentOnly := by
  refine ⟨by decide, by decide, by decide, by decide⟩

/-- C3: for every connection, filter and mode, `dbhash` starts from a fresh
accumulator, runs the content hasher exactly when the mode is
`SchemaAndContent` or `ContentOnly`, runs the schema hasher exactly when the
mode is `SchemaAndContent` or `SchemaOnly`, always content before schema, and
finalizes once into a 20-byte digest. -/
theorem digest_coordinator_contract (db : DB) (pat : Option String) (sel : Selection)
    (hwf : db.WF) :
    dbhashDB db pat sel =
      Except.ok (sha1 ((if contentSelected sel then contentStream db pat else []) ++
        (if schemaSelected sel then schemaStream db pat else []))) ∧
    (contentSelected sel = true ↔
      (sel = Selection.SchemaAndContent ∨ sel = Selection.ContentOnly)) ∧
    (schemaSelected sel = true ↔
      (sel = Selection.SchemaAndContent ∨ sel = Selection.SchemaOnly)) ∧
    (∀ d : List Nat, dbhashDB db pat sel = Except.ok d → d.length = 20) := by
  refine ⟨dbhash_db db pat sel hwf, ?_, ?_, ?_⟩
  · cases sel <;> simp [contentSelected]
  · cases sel <;> simp [schemaSelected]
  · intro d hd
    rw [dbhash_db db pat sel hwf] at hd
    injection hd with h
    rw [← h]
    exact sha1_length _

/-- Witness for C3 at a one-table database in `SchemaAndContent` mode. -/
theorem digest_coordinator_contract_witness :
    dbhashDB ⟨[⟨"table", "t", "t", some "CREATE TABLE t(x)"⟩],
        [⟨"t", [[Value.integer 1]]⟩]⟩ none Selection.SchemaAndContent =
      Except.ok (sha1
        (contentStream ⟨[⟨"table", "t", "t", some "CREATE TABLE t(x)"⟩],
            [⟨"t", [[Value.integer 1]]⟩]⟩ none ++
          schemaStream ⟨[⟨"table", "t", "t", some "CREATE TABLE t(x)"⟩],
            [⟨"t", [[Value.integer 1]]⟩]⟩ none)) :=
  (digest_coordinator_contract _ none Selection.SchemaAndContent (by decide)).1

/-- C8: when the filter matches no table name and no schema object's owning
table, `dbhash` succeeds in every mode and returns the digest of the empty
byte stream — a fresh accumulator finalized with nothing appended. -/
theorem empty_filter_digest (db : DB) (p : String) (sel : Selection)
    (h : ∀ o ∈ db.schema, likeMatch p o.name = false ∧ likeMatch p o.tblName = false) :
    dbhashDB db (some p) sel = Except.ok (sha1 []) := by
  have h1 : tableNamesQ db (some p) = [] := by
    unfold tableNamesQ
    have : db.schema.filter (tableSelWhere (some p)) = [] := by
      rw [List.filter_eq_nil]
      intro o ho
      unfold tableSelWhere
      simp [(h o ho).1]
    rw [this]
    rfl
  have h2 : schemaRowsQ db (some p) = [] := by
    unfold schemaRowsQ
    have : db.schema.filter (schemaWhere (some p)) = [] := by
      rw [List.filter_eq_nil]
      intro o ho
      unfold schemaWhere
      simp [(h o ho).2]
    rw [this]
    rfl
  have hc : hash_content [] db.engine (some p) = Except.ok [] := by
    rw [hash_content,
      show db.engine.tableNames (some p)
        = Except.ok ((tableNamesQ db (some p)).map Except.ok) from rfl, h1]
    rfl
  have hs : ∀ acc : List Nat, hash_schema acc db.engine (some p) = Except.ok acc := by
    intro acc
    rw [hash_schema,
      show db.engine.schemaCursor (some p)
        = Except.ok (okCursor (schemaRowsQ db (some p))) from rfl, h2]
    rfl
  rw [dbhashDB, dbhash]
  cases sel <;>
    simp only [contentSelected, schemaSelected, if_true, Bool.false_eq_true, if_false,
      hc, hs]

/-- Witness for C8: a database with one table `t` filtered by `zzz`. -/
theorem empty_filter_digest_witness :
    dbhashDB ⟨[⟨"table", "t", "t", some "CREATE TABLE t(x)"⟩],
        [⟨"t", [[Value.integer 1]]⟩]⟩ (some "zzz") Selection.SchemaAndContent =
      Except.ok (sha1 []) :=
  empty_filter_digest _ "zzz" _ (by decide)

/-- C4 (amended): table discovery returns exactly the names of catalog
objects of type `table` whose defining statement does not match
`LIKE 'CREATE VIRTUAL%'` (case-insensitively), whose name does not match the
case-insensitive `LIKE` pattern `sqlite_%` — in which `_` is a
single-character wildcard, so names such as `sqlitezzz` are also excluded,
not only literal `sqlite_` prefixes — and which match the optional filter;
the names come back ascending under the case-insensitive collation, ties
following the engine's enumeration of the catalog. -/
theorem table_discovery_contract (db : DB) (pat : Option String) :
    (∀ name : String,
      name ∈ tableNamesQ db pat ↔
        ∃ o ∈ db.schema, o.name = name ∧ o.otype = "table" ∧
          (match o.sql with
           | some stmt => likeMatch "CREATE VIRTUAL%%" stmt = false
           | none => False) ∧
          likeMatch "sqlite_%%" name = false ∧
          (match pat with
           | some p => likeMatch p name = true
           | none => True)) ∧
    List.Pairwise (fun a b => nocaseLe a b = true) (tableNamesQ db pat) := by
  constructor
  · intro name
    rw [mem_tableNamesQ]
    constructor
    · rintro ⟨o, ho, rfl, hsel⟩
      refine ⟨o, ho, rfl, ?_⟩
      unfold tableSelWhere at hsel
      simp only [Bool.and_eq_true, decide_eq_true_eq, Bool.not_eq_true'] at hsel
      obtain ⟨⟨⟨hty, hsql⟩, hname⟩, hpat⟩ := hsel
      refine ⟨hty, ?_, hname, ?_⟩
      · match hs : o.sql with
        | some stmt =>
          rw [hs] at hsql
          simpa using hsql
        | none =>
          rw [hs] at hsql
          simp at hsql
      · match pat with
        | some p =>
          simpa using hpat
        | none => trivial
    · rintro ⟨o, ho, rfl, hty, hsql, hname, hpat⟩
      refine ⟨o, ho, rfl, ?_⟩
      unfold tableSelWhere
      simp only [Bool.and_eq_true, decide_eq_true_eq, Bool.not_eq_true']
      refine ⟨⟨⟨hty, ?_⟩, hname⟩, ?_⟩
      · match hs : o.sql with
        | some stmt =>
          rw [hs] at hsql
          simpa using hsql
        | none =>
          rw [hs] at hsql
          exact absurd hsql (by simp)
      · match pat with
        | some p =>
          simpa using hpat
        | none => rfl
  · have hsorted := List.sorted_insertionSort byNameNocase
      (db.schema.filter (tableSelWhere pat))
    unfold tableNamesQ
    exact List.pairwise_map.mpr hsorted

/-- C4 is false as stated on the code: the object `sqlitezzz` has type
`table`, is not virtual, does not begin with the reserved prefix `sqlite_`
(under any casing) and no filter is given, yet discovery omits it, because
the code's `NOT LIKE 'sqlite_%'` treats `_` as a wildcard. -/
theorem table_discovery_prefix_counterexample :
    ((⟨"table", "sqlitezzz", "sqlitezzz", some "CREATE TABLE sqlitezzz(x)"⟩ : SchemaObject)
        ∈ (⟨[⟨"table", "sqlitezzz", "sqlitezzz", some "CREATE TABLE sqlitezzz(x)"⟩],
            [⟨"sqlitezzz", [[Value.integer 1]]⟩]⟩ : DB).schema) ∧
    startsWithCI "sqlite_" "sqlitezzz" = false ∧
    likeMatch "CREATE VIRTUAL%%" "CREATE TABLE sqlitezzz(x)" = false ∧
    tableNamesQ ⟨[⟨"table", "sqlitezzz", "sqlitezzz", some "CREATE TABLE sqlitezzz(x)"⟩],
        [⟨"sqlitezzz", [[Value.integer 1]]⟩]⟩ none = [] := by
  refine ⟨by decide, by decide, by decide, by decide⟩

/-- C7: every engine error — during table discovery, scan preparation,
cursor advance, or value read — propagates immediately through `dbhash` and
its helpers; no digest is produced and no error is downgraded. -/
theorem engine_errors_propagate :
    (∀ (eng : Engine) (pat : Option String) (e : Err),
      eng.tableNames pat = Except.error e →
        dbhash eng pat Selection.SchemaAndContent = Except.error e ∧
        dbhash eng pat Selection.ContentOnly = Except.error e) ∧
    (∀ (eng : Engine) (acc : List Nat) (name : String)
        (rest : List (Except Err String)) (e : Err),
      eng.prepareScan (scanSQL name) = Except.error e →
        hashContentGo acc eng (Except.ok name :: rest) = Except.error e) ∧
    (∀ (acc : List Nat) (e : Err) (rest : Cursor),
      hash_query acc (Except.error e :: rest) = Except.error e) ∧
    (∀ (acc : List Nat) (n : Nat) (e : Err) (rest : Cursor),
      hashQueryGo acc n (Except.error e :: rest) = Except.error e) ∧
    (∀ (acc : List Nat) (row : List (Except Err Value)) (i k : Nat) (e : Err),
      getRef row i = Except.error e → hashCols acc row i (k + 1) = Except.error e) ∧
    (∀ (eng : Engine) (pat : Option String) (e : Err),
      eng.schemaCursor pat = Except.error e →
        dbhash eng pat Selection.SchemaOnly = Except.error e) ∧
    (∀ (eng : Engine) (pat : Option String) (acc1 : List Nat) (e : Err),
      hash_content [] eng pat = Except.ok acc1 →
      eng.schemaCursor pat = Except.error e →
        dbhash eng pat Selection.SchemaAndContent = Except.error e) := by
  refine ⟨?_, ?_, ?_, ?_, ?_, ?_, ?_⟩
  · intro eng pat e h
    have hc : hash_content [] eng pat = Except.error e := by
      rw [hash_content, h]
    constructor <;>
      · rw [dbhash]
        simp only [contentSelected, if_true, hc]
  · intro eng acc name rest e h
    rw [hashContentGo, h]
  · intro acc e rest
    rfl
  · intro acc n e rest
    rfl
  · intro acc row i k e h
    rw [hashCols, h]
  · intro eng pat e h
    have hs : hash_schema [] eng pat = Except.error e := by
      rw [hash_schema, h]
    rw [dbhash]
    simp only [contentSelected, schemaSelected, Bool.false_eq_true, if_false, if_true, hs]
  · intro eng pat acc1 e h1 h2
    have hs : hash_schema acc1 eng pat = Except.error e := by
      rw [hash_schema, h2]
    rw [dbhash]
    simp only [contentSelected, schemaSelected, if_true, h1, hs]

/-- Witness for C7 with concrete fault-injecting engines. -/
theorem engine_errors_propagate_witness :
    dbhash ⟨fun _ => Except.error (Err.engine 7), fun _ => Except.ok [],
        fun _ => Except.ok []⟩ none Selection.ContentOnly
      = Except.error (Err.engine 7) ∧
    hashContentGo [] ⟨fun _ => Except.ok [], fun _ => Except.error (Err.engine 8),
        fun _ => Except.ok []⟩ [Except.ok "t"]
      = Except.error (Err.engine 8) ∧
    hashCols [] [Except.error (Err.engine 9)] 0 1 = Except.error (Err.engine 9) ∧
    dbhash ⟨fun _ => Except.ok [], fun _ => Except.ok [],
        fun _ => Except.error (Err.engine 10)⟩ none Selection.SchemaAndContent
      = Except.error (Err.engine 10) :=
  ⟨(engine_errors_propagate.1 _ none _ rfl).2,
    engine_errors_propagate.2.1 _ [] "t" [] _ rfl,
    engine_errors_propagate.2.2.2.2.1 [] _ 0 0 _ rfl,
    engine_errors_propagate.2.2.2.2.2.2 _ none [] _ rfl rfl⟩

/-- C1 (amended): provided no catalog name separates the code's
`NOT LIKE 'sqlite_%'` exclusion (where `_` is a one-character wildcard) from
the spec's literal case-insensitive `sqlite_` prefix exclusion, the digest
returned by `dbhash` is bit-identical — bytewise and as printed lowercase
hex — to the spec-modelled reference tool's SHA-1 output for the same
database, filter and mode. -/
theorem dbhash_matches_reference (db : DB) (pat : Option String) (sel : Selection)
    (hwf : db.WF)
    (hpfx : ∀ o ∈ db.schema,
      likeMatch "sqlite_%%" o.name = startsWithCI "sqlite_" o.name) :
    dbhashDB db pat sel = Except.ok (referenceDigest db pat sel) ∧
    (dbhashDB db pat sel).map toLowerHex
      = Except.ok (toLowerHex (referenceDigest db pat sel)) := by
  have hmain : dbhashDB db pat sel = Except.ok (referenceDigest db pat sel) := by
    rw [dbhash_db db pat sel hwf, referenceDigest,
      refContentStream_eq db pat hpfx, refSchemaStream_eq db pat]
  exact ⟨hmain, by rw [hmain]; rfl⟩

set_option maxRecDepth 400000 in
/-- C1 is false as stated: on a database whose only table is named
`sqlitezzz`, the library hashes nothing (its discovery drops the table via
the `_` wildcard) while the spec-modelled reference hashes the table's row,
and the two SHA-1 digests differ, in bytes and in lowercase hex. -/
theorem dbhash_reference_mismatch :
    dbhashDB ⟨[⟨"table", "sqlitezzz", "sqlitezzz", some "CREATE TABLE sqlitezzz(x)"⟩],
        [⟨"sqlitezzz", [[Value.integer 1]]⟩]⟩ none Selection.ContentOnly
      = Except.ok (sha1 []) ∧
    sha1 [] ≠ referenceDigest
      ⟨[⟨"table", "sqlitezzz", "sqlitezzz", some "CREATE TABLE sqlitezzz(x)"⟩],
        [⟨"sqlitezzz", [[Value.integer 1]]⟩]⟩ none Selection.ContentOnly ∧
    toLowerHex (sha1 []) ≠ toLowerHex (referenceDigest
      ⟨[⟨"table", "sqlitezzz", "sqlitezzz", some "CREATE TABLE sqlitezzz(x)"⟩],
        [⟨"sqlitezzz", [[Value.integer 1]]⟩]⟩ none Selection.ContentOnly) := by
  refine ⟨by decide, by decide, by decide⟩

set_option maxRecDepth 400000 in
/-- Witness for C1 (amended) on a one-table database named `t`, full mode. -/
theorem dbhash_matches_reference_witness :
    dbhashDB ⟨[⟨"table", "t", "t", some "CREATE TABLE t(x)"⟩],
        [⟨"t", [[Value.integer 1]]⟩]⟩ none Selection.SchemaAndContent
      = Except.ok (referenceDigest ⟨[⟨"table", "t", "t", some "CREATE TABLE t(x)"⟩],
          [⟨"t", [[Value.integer 1]]⟩]⟩ none Selection.SchemaAndContent) :=
  (dbhash_matches_reference _ none Selection.SchemaAndContent (by decide) (by decide)).1

/-! ## Schema-change facts (supporting development for section 8's
schema-change property)

Adding an index is modelled as appending a catalog row of type `index` to
the schema, with the stored tables untouched.  The content phase is proved
invariant at digest level; the schema phase's byte stream strictly grows, so
the two streams differ — the digest-level inequality would additionally need
SHA-1 collision-freeness on this stream pair. -/

theorem tableNamesQ_addIndex (db : DB) (idx : SchemaObject)
    (hidx : idx.otype = "index") (pat : Option String) :
    tableNamesQ ⟨db.schema ++ [idx], db.tables⟩ pat = tableNamesQ db pat := by
  unfold tableNamesQ
  have hfilter : (db.schema ++ [idx]).filter (tableSelWhere pat)
      = db.schema.filter (tableSelWhere pat) := by
    rw [List.filter_append]
    have : [idx].filter (tableSelWhere pat) = [] := by
      have hno : tableSelWhere pat idx = false := by
        unfold tableSelWhere
        simp [hidx]
      simp [List.filter, hno]
    rw [this, List.append_nil]
  rw [hfilter]

/-- Adding an index leaves the `ContentOnly` digest unchanged. -/
theorem addIndex_contentOnly_digest_unchanged (db : DB) (idx : SchemaObject)
    (hidx : idx.otype = "index") (hwf : db.WF) (pat : Option String) :
    dbhashDB ⟨db.schema ++ [idx], db.tables⟩ pat Selection.ContentOnly
      = dbhashDB db pat Selection.ContentOnly := by
  have hwf' : DB.WF ⟨db.schema ++ [idx], db.tables⟩ := by
    refine ⟨hwf.1, ?_⟩
    intro o ho hot
    rcases List.mem_append.mp ho with h | h
    · exact hwf.2 o h hot
    · have : o = idx := by simpa using h
      subst this
      rw [hidx] at hot
      exact absurd hot (by decide)
  rw [dbhash_db _ pat _ hwf', dbhash_db db pat _ hwf]
  have hcs : contentStream ⟨db.schema ++ [idx], db.tables⟩ pat
      = contentStream db pat := by
    unfold contentStream
    rw [tableNamesQ_addIndex db idx hidx pat]
    have hro : ∀ n, rowsOfD ⟨db.schema ++ [idx], db.tables⟩ n = rowsOfD db n :=
      fun _ => rfl
    simp only [hro]
  rw [show (contentSelected Selection.ContentOnly) = true from rfl,
    show (schemaSelected Selection.ContentOnly) = false from rfl]
  simp only [if_true, Bool.false_eq_true, if_false, hcs]

/-- Byte length contributed by one row of width `n`. -/
def rowBytes (n : Nat) (r : List Value) : Nat :=
  ((r.take n).foldl updateValue []).length

theorem foldl_rows_length (n : Nat) (rows : List (List Value)) (acc : List Nat) :
    (rows.foldl (fun a r => (r.take n).foldl updateValue a) acc).length
      = acc.length + (rows.map (rowBytes n)).sum := by
  induction rows generalizing acc with
  | nil => simp
  | cons r rows ih =>
    simp only [List.foldl_cons, List.map_cons, List.sum_cons]
    rw [ih]
    have : ((r.take n).foldl updateValue acc).length = acc.length + rowBytes n r := by
      have happ : (r.take n).foldl updateValue acc = acc ++ (r.take n).foldl updateValue [] := by
        conv_lhs => rw [show acc = acc ++ ([] : List Nat) from (List.append_nil acc).symm]
        exact foldl_updateValue_append _ acc []
      rw [happ, List.length_append, rowBytes]
    rw [this]
    omega

theorem updateValue_length (acc : List Nat) (v : Value) :
    (updateValue acc v).length ≥ acc.length + 1 := by
  cases v <;> simp [updateValue]

theorem rowBytes_pos (n : Nat) (r : List Value) (hn : 0 < n) (hr : r ≠ []) :
    0 < rowBytes n r := by
  rw [rowBytes]
  match r, hr with
  | v :: r', _ =>
    match n, hn with
    | m + 1, _ =>
      simp only [List.take_succ_cons, List.foldl_cons]
      have h1 : (updateValue [] v).length ≥ 1 := updateValue_length [] v
      have h2 : ∀ (l : List Value) (a : List Nat),
          (l.foldl updateValue a).length ≥ a.length := by
        intro l
        induction l with
        | nil => intro a; exact le_refl _
        | cons w l ih =>
          intro a
          calc a.length ≤ (updateValue a w).length := by
                have := updateValue_length a w
                omega
            _ ≤ (List.foldl updateValue (updateValue a w) l).length := ih _
      have := h2 (r'.take m) (updateValue [] v)
      omega

/-- The length of a schema-phase byte stream is the sum of its row
contributions at width 4. -/
theorem schemaStream_length (db : DB) (pat : Option String) :
    (schemaStream db pat).length = ((schemaRowsQ db pat).map (rowBytes 4)).sum := by
  rw [schemaStream]
  match hrows : schemaRowsQ db pat with
  | [] => rfl
  | r0 :: rest =>
    have h0 : r0.length = 4 :=
      schemaRowsQ_width db pat r0 (by rw [hrows]; exact List.mem_cons_self _ _)
    have hq : queryStream (r0 :: rest)
        = (r0 :: rest).foldl (fun a r => (r.take r0.length).foldl updateValue a) [] := rfl
    rw [hq, h0, foldl_rows_length]
    simp

/-- Adding a catalog row whose owning table matches the filter strictly
lengthens the schema byte stream, so the stream — and the bytes fed to
SHA-1 in `SchemaOnly` and `SchemaAndContent` modes — changes. -/
theorem addIndex_schemaStream_longer (db : DB) (idx : SchemaObject)
    (pat : Option String) (hmatch : schemaWhere pat idx = true) :
    (schemaStream db pat).length < (schemaStream ⟨db.schema ++ [idx], db.tables⟩ pat).length := by
  rw [schemaStream_length, schemaStream_length]
  have h1 : (db.schema ++ [idx]).filter (schemaWhere pat)
      = db.schema.filter (schemaWhere pat) ++ [idx] := by
    rw [List.filter_append]
    congr 1
    simp [List.filter, hmatch]
  have p1 : schemaRowsQ ⟨db.schema ++ [idx], db.tables⟩ pat
      = ((db.schema.filter (schemaWhere pat) ++ [idx]).insertionSort
          byNameNocase).map schemaObjRow := by
    unfold schemaRowsQ
    rw [show (⟨db.schema ++ [idx], db.tables⟩ : DB).schema = db.schema ++ [idx] from rfl,
      h1]
  have p2 : List.Perm
      (((db.schema.filter (schemaWhere pat) ++ [idx]).insertionSort
        byNameNocase).map schemaObjRow)
      ((db.schema.filter (schemaWhere pat) ++ [idx]).map schemaObjRow) :=
    (List.perm_insertionSort byNameNocase _).map schemaObjRow
  have p4 : List.Perm
      ((db.schema.filter (schemaWhere pat) ++ [idx]).map schemaObjRow)
      (schemaObjRow idx :: (db.schema.filter (schemaWhere pat)).map schemaObjRow) := by
    rw [List.map_append]
    exact List.perm_append_singleton _ _
  have p5 : List.Perm
      ((db.schema.filter (schemaWhere pat)).map schemaObjRow)
      (schemaRowsQ db pat) := by
    unfold schemaRowsQ
    exact ((List.perm_insertionSort byNameNocase _).map schemaObjRow).symm
  have hperm : List.Perm
      (schemaRowsQ ⟨db.schema ++ [idx], db.tables⟩ pat)
      (schemaObjRow idx :: schemaRowsQ db pat) := by
    rw [p1]
    exact p2.trans (p4.trans (List.Perm.cons _ p5))
  have hsum : ((schemaRowsQ ⟨db.schema ++ [idx], db.tables⟩ pat).map (rowBytes 4)).sum
      = rowBytes 4 (schemaObjRow idx) + ((schemaRowsQ db pat).map (rowBytes 4)).sum := by
    have := (hperm.map (rowBytes 4)).sum_eq
    simpa using this
  have hpos : 0 < rowBytes 4 (schemaObjRow idx) := by
    apply rowBytes_pos 4 _ (by omega)
    cases h : idx.sql <;> simp [schemaObjRow, h]
  omega

end DbHash
